import Mathlib

/-!
Verification of the agent-tools-server (src/server.js): a shallow embedding of
the URL normalizer, the album and image extractors, the spreadsheet appender
and the HTTP routing surface, together with theorems settling the behavioural
claims about them.

Strings are modelled with Lean strings; the JavaScript truthiness idiom
`x || y` on strings is modelled by `jsOr`.  Attributes that may be absent on
an HTML element are modelled as `Option String` (cheerio `attr` returns
`undefined` for an absent attribute).
-/

namespace Srv

/-- JavaScript `a || b` on strings: the empty string is falsy. -/
def jsOr (a b : String) : String := if a = "" then b else a

/-- Tests that `s` starts with `pre` (character-list prefix test). -/
def strStartsWith (s pre : String) : Bool := pre.data.isPrefixOf s.data

/-- Tests that `s` ends with `suf` (character-list suffix test). -/
def strEndsWith (s suf : String) : Bool := suf.data.isSuffixOf s.data

/-- Tests that `pat` occurs as a contiguous substring of `s`; models JavaScript
`RegExp.test` for a regex that is a literal string. -/
def containsSub (s pat : String) : Bool :=
  s.data.tails.any (fun t => pat.data.isPrefixOf t)

/-- ASCII lowercasing of a string, used to model a case-insensitive regex. -/
def lowerStr (s : String) : String := String.mk (s.data.map Char.toLower)

/-- JavaScript `String.prototype.trim`: strip whitespace from both ends. -/
def jsTrim (s : String) : String :=
  String.mk (((s.data.dropWhile Char.isWhitespace).reverse.dropWhile
    Char.isWhitespace).reverse)

/-- Boolean membership of a string in a list; models `Set.prototype.has` on
the seen-sets kept by the extractors. -/
def memStr (u : String) : List String → Bool
  | [] => false
  | v :: rest => (u == v) || memStr u rest

/-- The fixed fallback origin hard-coded in `absolute`
(server.js line 50). -/
def defaultBase : String := "https://yolo66.x.yupoo.com"

/-- Models `process.env.BASE_URL || default` (server.js line 50): the environment
variable is `none` when unset, and an empty value is falsy. -/
def baseOf (envBase : Option String) : String := jsOr (envBase.getD "") defaultBase

/-- The test of the regex `^https?://` with the case-insensitive flag
(server.js line 46). -/
def hasHttpScheme (url : String) : Bool :=
  strStartsWith (lowerStr url) "http://" || strStartsWith (lowerStr url) "https://"

/-- Models `base.replace` of the regex matching one trailing slash by the empty
string (server.js lines 52 and 54). -/
def stripTrailingSlash (s : String) : String :=
  if strEndsWith s "/" then String.mk s.data.dropLast else s

/-- The URL normalizer `absolute` (server.js lines 43-55), parametrised by the
`BASE_URL` environment value. -/
def absolute (envBase : Option String) (url : String) : String :=
  if url = "" then ""
  else if hasHttpScheme url then url
  else if strStartsWith url "//" then "https:" ++ url
  else if strStartsWith url "/" then stripTrailingSlash (baseOf envBase) ++ url
  else stripTrailingSlash (baseOf envBase) ++ "/" ++ url

/-- An anchor element as cheerio presents it to `extractAlbums`: the `href`
and `title` attributes (absent attributes are `none`) and the visible text. -/
structure Anchor where
  href : Option String
  title : Option String
  text : String
deriving DecidableEq

/-- The selector view of a parsed HTML document used by `extractAlbums`
(server.js line 99): the anchors matched, in document order, by each of the
four selector tiers, from most to least specific.  The last tier is the
catch-all selector matching every anchor of the document. -/
structure AlbumDoc where
  albumMain : List Anchor
  categoriesMain : List Anchor
  showMain : List Anchor
  anchors : List Anchor
deriving DecidableEq

/-- One entry of the extractor output (server.js line 110). -/
structure Album where
  album_url : String
  album_title : String
deriving DecidableEq

/-- The test of the regex matching the literal `/album/` or `/albums/`
(server.js line 108). -/
def albumPat (url : String) : Bool :=
  containsSub url "/album/" || containsSub url "/albums/"

/-- The title computed for an anchor (server.js lines 105 and 110):
`(attr title || text || empty).trim()` and then `|| Untitled`. -/
def anchorTitle (a : Anchor) : String :=
  jsOr (jsTrim (jsOr (jsOr (a.title.getD "") a.text) "")) "Untitled"

/-- The URL an anchor resolves to: `absolute` of its `href` attribute, an
absent attribute read as the empty string (server.js lines 104 and 107). -/
def anchorUrl (envBase : Option String) (a : Anchor) : String :=
  absolute envBase (a.href.getD "")

/-- The body of the `each` callback of `extractAlbums` (server.js
lines 103-112), acting on the state of the scan: the list of already accepted
URLs (the `seen` set) and the accumulated output. -/
def scanAnchor (envBase : Option String) (st : List String × List Album)
    (a : Anchor) : List String × List Album :=
  if a.href.getD "" = "" then st
  else if albumPat (anchorUrl envBase a) && !(memStr (anchorUrl envBase a) st.1) then
    (anchorUrl envBase a :: st.1, st.2 ++ [⟨anchorUrl envBase a, anchorTitle a⟩])
  else st

/-- The extractor `extractAlbums` (server.js lines 97-115): the four selector tiers are
scanned in order, threading the seen-set and the output through the scan.
The `baseUrl` parameter is declared by the source but never read by its
body. -/
def extractAlbums (envBase : Option String) (doc : AlbumDoc)
    (baseUrl : String) : List Album :=
  (doc.anchors.foldl (scanAnchor envBase)
    (doc.showMain.foldl (scanAnchor envBase)
      (doc.categoriesMain.foldl (scanAnchor envBase)
        (doc.albumMain.foldl (scanAnchor envBase) ([], []))))).2

/-- The concatenation of the four selector tiers: the complete anchor
sequence of the tier-by-tier scan. -/
def docAnchors (doc : AlbumDoc) : List Anchor :=
  doc.albumMain ++ doc.categoriesMain ++ doc.showMain ++ doc.anchors

/-- The claimed declarative reading of the album scan: walk the anchor
sequence once; keep the first anchor reaching each URL that passes the album
pattern, discarding every later anchor resolving to an already kept URL. -/
def firstSeenAlbums (envBase : Option String) : List Anchor → List Album
  | [] => []
  | a :: rest =>
    if (a.href.getD "" != "") && albumPat (anchorUrl envBase a) then
      ⟨anchorUrl envBase a, anchorTitle a⟩ ::
        firstSeenAlbums envBase
          (rest.filter (fun b => anchorUrl envBase b != anchorUrl envBase a))
    else firstSeenAlbums envBase rest
termination_by l => l.length
decreasing_by
  all_goals simp_wf
  all_goals exact Nat.lt_succ_of_le (List.length_filter_le _ _)

/-- The claimed reading of the album URL pattern in which the `album` or
`albums` path segment may also sit at the very end of the URL, with no
trailing slash. -/
def albumPatSegmentAtEnd (url : String) : Bool :=
  containsSub url "/album/" || containsSub url "/albums/" ||
    strEndsWith url "/album" || strEndsWith url "/albums"

/-- An image element as cheerio presents it to `extractImages`: its
`data-origin-src` and `src` attributes, absent attributes being `none`. -/
structure Img where
  dataOriginSrc : Option String
  src : Option String
deriving DecidableEq

/-- The candidate source of an image element (server.js line 123):
`attr data-origin-src || attr src || empty`. -/
def imgCandidate (el : Img) : String :=
  jsOr (jsOr (el.dataOriginSrc.getD "") (el.src.getD "")) ""

/-- The test of the regex matching `sprite`, `placeholder` or `loading`
(server.js line 126), applied to the raw, unresolved candidate. -/
def isFilteredImg (cand : String) : Bool :=
  containsSub cand "sprite" || containsSub cand "placeholder" ||
    containsSub cand "loading"

/-- The body of the `each` callback of `extractImages` (server.js
lines 120-128): skip elements with no candidate, drop filtered candidates,
push the resolved URL of the rest. -/
def imgStep (envBase : Option String) (acc : List String) (el : Img) :
    List String :=
  if imgCandidate el = "" then acc
  else if isFilteredImg (imgCandidate el) then acc
  else acc ++ [absolute envBase (imgCandidate el)]

/-- One step of the de-duplication loop of `extractImages` (server.js
lines 130-137), acting on the seen-set and the output being built. -/
def dedupStep (st : List String × List String) (u : String) :
    List String × List String :=
  if memStr u st.1 then st else (u :: st.1, st.2 ++ [u])

/-- The order-preserving de-duplication pass of `extractImages`
(server.js lines 130-137). -/
def dedupFirst (urls : List String) : List String :=
  (urls.foldl dedupStep ([], [])).2

/-- The extractor `extractImages` (server.js lines 117-139). -/
def extractImages (envBase : Option String) (imgs : List Img) : List String :=
  dedupFirst (imgs.foldl (imgStep envBase) [])

/-- The claimed declarative reading of the image pipeline before
de-duplication: elements in document order, those with a non-empty and
unfiltered candidate kept, each resolved to an absolute URL. -/
def imageCandidates (envBase : Option String) (imgs : List Img) : List String :=
  (imgs.filter (fun el =>
      (imgCandidate el != "") && !(isFilteredImg (imgCandidate el)))).map
    (fun el => absolute envBase (imgCandidate el))

/-- The claimed declarative reading of de-duplication: keep each value at its
first occurrence only. -/
def dedupSpec : List String → List String
  | [] => []
  | u :: rest => u :: dedupSpec (rest.filter (fun v => v != u))
termination_by l => l.length
decreasing_by
  simp_wf
  exact Nat.lt_succ_of_le (List.length_filter_le _ _)

/-- The album scan in recursive form, carrying the seen-set explicitly; an
intermediate form connecting the `foldl` of `extractAlbums` with
`firstSeenAlbums`. -/
def scanRec (envBase : Option String) (seen : List String) :
    List Anchor → List Album
  | [] => []
  | a :: rest =>
    if a.href.getD "" = "" then scanRec envBase seen rest
    else if albumPat (anchorUrl envBase a) && !(memStr (anchorUrl envBase a) seen) then
      ⟨anchorUrl envBase a, anchorTitle a⟩ ::
        scanRec envBase (anchorUrl envBase a :: seen) rest
    else scanRec envBase seen rest

/-- The de-duplication loop in recursive form, carrying the seen-set
explicitly; an intermediate form connecting `dedupFirst` with `dedupSpec`. -/
def dedupRec (seen : List String) : List String → List String
  | [] => []
  | u :: rest =>
    if memStr u seen then dedupRec seen rest
    else u :: dedupRec (u :: seen) rest

/-- The fixed ten-column schema of the spreadsheet appender
(server.js line 148). -/
def header : List String :=
  ["Album Title", "Album URL", "Image 1", "Image 2", "Image 3", "Image 4",
   "Image 5", "Image 6", "Image 7", "Image 8"]

/-- A row object sent to the appender: an association of column names to
values, where a present key may carry a JSON null (`some none`). -/
abbrev RowObj := List (String × Option String)

/-- The JavaScript lookup `row[h] || empty` (server.js line 149): an absent
key, a null value and an empty value all give the empty string. -/
def rowGet (row : RowObj) (h : String) : String :=
  match row.lookup h with
  | none => ""
  | some none => ""
  | some (some v) => v

/-- The row vectors emitted by `appendRows` (server.js line 149): one
ten-column vector per input row, in input order. -/
def appendRowsValues (rows : List RowObj) : List (List String) :=
  rows.map (fun r => header.map (rowGet r))

/-- The environment configuration read by the spreadsheet appender. -/
structure SheetsEnv where
  gsaBase64 : Option String
  sheetId : Option String
  sheetName : Option String
deriving DecidableEq

/-- The client value produced by `initSheets`; it carries the parsed
service-account credential. -/
structure SheetsClient where
  credentials : String
deriving DecidableEq

/-- The client constructor `initSheets` (server.js lines 58-75).  The base64 decoding and JSON
parsing performed by the Buffer and JSON libraries are abstracted as the
`parseKey` argument; on its failure `initSheets` wraps the message as the
source does. -/
def initSheets (parseKey : String → Except String String)
    (gsaBase64 : Option String) : Except String SheetsClient :=
  if gsaBase64.getD "" = "" then
    Except.error "Missing GSA_BASE64 environment variable"
  else
    match parseKey (gsaBase64.getD "") with
    | Except.error msg =>
      Except.error ("Failed to decode or parse GSA_BASE64: " ++ msg)
    | Except.ok keyJson => Except.ok ⟨keyJson⟩

/-- The per-process instrumentation of the appender: how many times
`initSheets` has run in this process. -/
structure SheetsCallLog where
  initCalls : Nat
deriving DecidableEq

/-- One call of `appendRows` (server.js lines 141-157) as a transition on the
process log: the body starts by running `initSheets` (line 142)
unconditionally, then checks the sheet configuration, and on success reports
the number of appended rows.  The external append API call itself is outside
the model; the vectors it would receive are `appendRowsValues rows`. -/
def appendRows (parseKey : String → Except String String) (env : SheetsEnv)
    (log : SheetsCallLog) (rows : List RowObj) :
    SheetsCallLog × Except String Nat :=
  (⟨log.initCalls + 1⟩,
    match initSheets parseKey env.gsaBase64 with
    | Except.error m => Except.error m
    | Except.ok _ =>
      if env.sheetId.getD "" = "" ∨ env.sheetName.getD "" = "" then
        Except.error "Missing SHEET_ID or SHEET_NAME environment variables"
      else Except.ok rows.length)

/-- A sequence of `sheets_append_rows` calls within one process lifetime,
starting from a fresh process. -/
def runAppendSeq (parseKey : String → Except String String) (env : SheetsEnv)
    (calls : List (List RowObj)) : SheetsCallLog :=
  calls.foldl (fun log c => (appendRows parseKey env log c).1) ⟨0⟩

/-- A JSON value, for request bodies and responses. -/
inductive JVal where
  | null : JVal
  | bool (b : Bool) : JVal
  | num (n : Int) : JVal
  | str (s : String) : JVal
  | arr (elems : List JVal) : JVal
  | obj (fields : List (String × JVal)) : JVal

/-- JavaScript truthiness of a JSON value. -/
def truthy : JVal → Bool
  | JVal.null => false
  | JVal.bool b => b
  | JVal.num n => n != 0
  | JVal.str s => s != ""
  | JVal.arr _ => true
  | JVal.obj _ => true

/-- Models `Array.isArray` on a JSON value. -/
def isArr : JVal → Bool
  | JVal.arr _ => true
  | _ => false

/-- The body of an HTTP response: an error object carrying a message, or a
successful JSON payload. -/
inductive RespBody where
  | errMsg (msg : String) : RespBody
  | okJson (v : JVal) : RespBody

/-- An HTTP response: status code and JSON body. -/
structure Resp where
  status : Nat
  body : RespBody

/-- The field of a request body read by destructuring: an absent field reads
as null for truthiness purposes. -/
def bodyField (body : List (String × JVal)) (name : String) : JVal :=
  (body.lookup name).getD JVal.null

/-- The `/tool/fetch_html` handler (server.js lines 163-172), with the
delegate `fetchHTML` outcome abstracted as an `Except` value. -/
def handleFetchHtml (body : List (String × JVal))
    (delegate : Except String JVal) : Resp :=
  if truthy (bodyField body "url") = false then
    ⟨400, RespBody.errMsg "url is required"⟩
  else
    match delegate with
    | Except.ok v => ⟨200, RespBody.okJson v⟩
    | Except.error m => ⟨500, RespBody.errMsg (jsOr m "fetch_html error")⟩

/-- The `/tool/extract_album_links` handler (server.js lines 175-184). -/
def handleExtractAlbumLinks (body : List (String × JVal))
    (delegate : Except String JVal) : Resp :=
  if truthy (bodyField body "html") = false then
    ⟨400, RespBody.errMsg "html is required"⟩
  else
    match delegate with
    | Except.ok v => ⟨200, RespBody.okJson v⟩
    | Except.error m =>
      ⟨500, RespBody.errMsg (jsOr m "extract_album_links error")⟩

/-- The `/tool/extract_image_links` handler (server.js lines 187-196). -/
def handleExtractImageLinks (body : List (String × JVal))
    (delegate : Except String JVal) : Resp :=
  if truthy (bodyField body "html") = false then
    ⟨400, RespBody.errMsg "html is required"⟩
  else
    match delegate with
    | Except.ok v => ⟨200, RespBody.okJson v⟩
    | Except.error m =>
      ⟨500, RespBody.errMsg (jsOr m "extract_image_links error")⟩

/-- The `/tool/sheets_append_rows` handler (server.js lines 199-208): the
rows field must be truthy and an array; the delegate `appendRows` outcome is
abstracted as an `Except` value carrying the row count. -/
def handleSheetsAppendRows (body : List (String × JVal))
    (delegate : Except String Nat) : Resp :=
  if truthy (bodyField body "rows") = false ∨ isArr (bodyField body "rows") = false then
    ⟨400, RespBody.errMsg "rows must be an array"⟩
  else
    match delegate with
    | Except.ok count =>
      ⟨200, RespBody.okJson (JVal.obj
        [("ok", JVal.bool true), ("count", JVal.num (count : Int))])⟩
    | Except.error m =>
      ⟨500, RespBody.errMsg (jsOr m "sheets_append_rows error")⟩

/-- An HTTP method. -/
inductive HttpMethod where
  | get : HttpMethod
  | post : HttpMethod
deriving DecidableEq

/-- The complete route table registered on the Express app
(server.js lines 163, 175, 187, 199): four POST routes and nothing else. -/
def appRoutes : List (HttpMethod × String) :=
  [(HttpMethod.post, "/tool/fetch_html"),
   (HttpMethod.post, "/tool/extract_album_links"),
   (HttpMethod.post, "/tool/extract_image_links"),
   (HttpMethod.post, "/tool/sheets_append_rows")]

/-- C1 (counterexample): a URL carrying a scheme other than http or https is
not returned unchanged by the normalizer; it is joined to the default base
origin as if it were a relative path. -/
theorem absolute_foreign_scheme_changed :
    absolute none "ftp://host/a" = "https://yolo66.x.yupoo.com/ftp://host/a" ∧
      absolute none "ftp://host/a" ≠ "ftp://host/a" := by decide

/-- C1 (amended): the normalizer returns its input unchanged exactly for the
schemes its regex recognises — http and https, matched case-insensitively. -/
theorem absolute_http_scheme_unchanged (envBase : Option String) (url : String)
    (h : hasHttpScheme url = true) : absolute envBase url = url := by
  have hne : url ≠ "" := by
    intro he; rw [he] at h; exact absurd h (by decide)
  simp only [absolute]
  rw [if_neg hne, if_pos h]

/-- C1 (witness): the amended statement applied to a mixed-case https URL. -/
theorem absolute_http_scheme_unchanged_inst :
    hasHttpScheme "HTTPS://Example.com/Path" = true ∧
      absolute none "HTTPS://Example.com/Path" = "HTTPS://Example.com/Path" :=
  ⟨by decide, absolute_http_scheme_unchanged none "HTTPS://Example.com/Path" (by decide)⟩

/-- C10: for the two scheme-less rules of the normalizer, an input starting
with one slash is concatenated to the base origin with the trailing slash
of the origin stripped, and any other non-empty scheme-less input is joined
to the origin with exactly one separating slash; the empty input gives the
empty output; in particular the two concrete examples of the spec hold. -/
theorem absolute_relative_join_rules (envBase : Option String) (url : String) :
    (absolute envBase "" = "") ∧
    (hasHttpScheme url = false → strStartsWith url "//" = false →
      strStartsWith url "/" = true →
      absolute envBase url = stripTrailingSlash (baseOf envBase) ++ url) ∧
    (url ≠ "" → hasHttpScheme url = false → strStartsWith url "//" = false →
      strStartsWith url "/" = false →
      absolute envBase url = stripTrailingSlash (baseOf envBase) ++ "/" ++ url) ∧
    absolute (some "https://h") "/x" = "https://h/x" ∧
    absolute (some "https://h/") "x" = "https://h/x" := by
  refine ⟨rfl, ?_, ?_, by decide, by decide⟩
  · intro h1 h2 h3
    have hne : url ≠ "" := by
      intro he; rw [he] at h3; exact absurd h3 (by decide)
    simp only [absolute]
    rw [if_neg hne, if_neg (by simp [h1]), if_neg (by simp [h2]), if_pos h3]
  · intro hne h1 h2 h3
    simp only [absolute]
    rw [if_neg hne, if_neg (by simp [h1]), if_neg (by simp [h2]),
      if_neg (by simp [h3])]

/-- C10 (witness): both conditional rules applied to concrete inputs under
the default base. -/
theorem absolute_relative_join_rules_inst :
    (hasHttpScheme "/x" = false ∧ strStartsWith "/x" "//" = false ∧
      strStartsWith "/x" "/" = true ∧
      absolute none "/x" = stripTrailingSlash (baseOf none) ++ "/x") ∧
    ("x" ≠ "" ∧ hasHttpScheme "x" = false ∧ strStartsWith "x" "//" = false ∧
      strStartsWith "x" "/" = false ∧
      absolute none "x" = stripTrailingSlash (baseOf none) ++ "/" ++ "x") :=
  ⟨⟨by decide, by decide, by decide,
    (absolute_relative_join_rules none "/x").2.1 (by decide) (by decide) (by decide)⟩,
   ⟨by decide, by decide, by decide, by decide,
    (absolute_relative_join_rules none "x").2.2.1 (by decide) (by decide)
      (by decide) (by decide)⟩⟩

/-- C5: the `baseUrl` parameter of `extractAlbums` has no effect on its
output — with the `BASE_URL` environment value fixed, any two values of the
parameter give identical results, since resolution always goes through
`absolute`. -/
theorem extractAlbums_ignores_baseUrl (envBase : Option String)
    (doc : AlbumDoc) (b1 b2 : String) :
    extractAlbums envBase doc b1 = extractAlbums envBase doc b2 := rfl

/-- C9 (counterexample): the route table of the server has no GET route on
the root path, so no liveness endpoint exists in this revision. -/
theorem routes_no_get_root :
    appRoutes.contains (HttpMethod.get, "/") = false := by decide

/-- C9 (amended): the HTTP surface registers exactly the four POST tool
routes and nothing else; in particular every route uses the POST method and
a path under the tool prefix. -/
theorem routes_only_post_tool :
    appRoutes.all (fun r => r.1 == HttpMethod.post && strStartsWith r.2 "/tool/") = true ∧
    appRoutes.contains (HttpMethod.post, "/tool/fetch_html") = true ∧
    appRoutes.contains (HttpMethod.post, "/tool/extract_album_links") = true ∧
    appRoutes.contains (HttpMethod.post, "/tool/extract_image_links") = true ∧
    appRoutes.contains (HttpMethod.post, "/tool/sheets_append_rows") = true ∧
    appRoutes.length = 4 := by decide

/-- C6 (counterexample): two consecutive `sheets_append_rows` calls run
`initSheets` twice — the claimed once-per-process authentication fails
already for a two-call sequence. -/
theorem appendRows_repeats_auth_cex :
    (runAppendSeq (fun s => Except.ok s)
        ⟨some "key", some "sheetid", some "Sheet1"⟩ [[], []]).initCalls = 2 ∧
    (runAppendSeq (fun s => Except.ok s)
        ⟨some "key", some "sheetid", some "Sheet1"⟩ [[], []]).initCalls ≠ 1 := by
  decide

/-- Folding append calls from any starting count adds one `initSheets` run
per call. -/
theorem runAppend_go (parseKey : String → Except String String)
    (env : SheetsEnv) (calls : List (List RowObj)) (n : Nat) :
    (calls.foldl (fun log c => (appendRows parseKey env log c).1)
      ⟨n⟩).initCalls = n + calls.length := by
  induction calls generalizing n with
  | nil => simp
  | cons c rest ih =>
    rw [List.foldl_cons]
    have h : (appendRows parseKey env ⟨n⟩ c).1 = (⟨n + 1⟩ : SheetsCallLog) := rfl
    rw [h, ih]
    simp [Nat.add_comm, Nat.add_assoc, Nat.add_left_comm]

/-- C6 (amended): `appendRows` runs `initSheets` on every call — after any
sequence of `sheets_append_rows` calls within one process lifetime, the
number of `initSheets` runs equals the number of calls, not one. -/
theorem runAppendSeq_initCalls_eq_length
    (parseKey : String → Except String String) (env : SheetsEnv)
    (calls : List (List RowObj)) :
    (runAppendSeq parseKey env calls).initCalls = calls.length := by
  rw [runAppendSeq, runAppend_go]
  simp

/-- C2: every emitted row vector is the ten-element, in-order lookup of the
fixed column names, rows are emitted one per input row in input order,
missing keys and null values give the empty string, extra keys are ignored,
and the concrete single-row example of the spec holds. -/
theorem appendRows_fixed_schema (rows : List RowObj) (r : RowObj) :
    (appendRowsValues rows).length = rows.length ∧
    appendRowsValues (r :: rows) = header.map (rowGet r) :: appendRowsValues rows ∧
    header.map (rowGet r) =
      [rowGet r "Album Title", rowGet r "Album URL", rowGet r "Image 1",
       rowGet r "Image 2", rowGet r "Image 3", rowGet r "Image 4",
       rowGet r "Image 5", rowGet r "Image 6", rowGet r "Image 7",
       rowGet r "Image 8"] ∧
    (∀ v ∈ appendRowsValues rows, v.length = 10) ∧
    (∀ k v, k ∉ header →
      header.map (rowGet ((k, v) :: r)) = header.map (rowGet r)) ∧
    appendRowsValues
        [[("Album Title", some "T"), ("Album URL", some "U"),
          ("Image 1", some "i1")]] =
      [["T", "U", "i1", "", "", "", "", "", "", ""]] ∧
    appendRowsValues [[("Album Title", some "T"), ("Image 3", none)]] =
      [["T", "", "", "", "", "", "", "", "", ""]] := by
  refine ⟨by simp [appendRowsValues], rfl, rfl, ?_, ?_, by decide, by decide⟩
  · intro v hv
    rcases List.mem_map.mp hv with ⟨r2, _, rfl⟩
    simp [header]
  · intro k v hk
    apply List.map_congr_left
    intro h hh
    have hne : (h == k) = false := by
      rcases Bool.eq_false_or_eq_true (h == k) with ht | hf
      · exact absurd (eq_of_beq ht ▸ hh) hk
      · exact hf
    simp [rowGet, List.lookup, hne]

/-- C2 (witness): the extra-key clause applied to a concrete row with a key
outside the schema. -/
theorem appendRows_fixed_schema_inst :
    ("Extra" ∉ header) ∧
      header.map (rowGet (("Extra", some "zzz") :: [("Album Title", some "T")])) =
        header.map (rowGet [("Album Title", some "T")]) :=
  ⟨by decide, (appendRows_fixed_schema [] [("Album Title", some "T")]).2.2.2.2.1
      "Extra" (some "zzz") (by decide)⟩

/-- C8 (counterexample): a `sheets_append_rows` request whose `rows` field is
present and truthy but not an array is rejected with 400 before the delegate
outcome matters — the handler checks shape, not only presence. -/
theorem sheets_handler_shape_check_cex :
    truthy (bodyField [("rows", JVal.num 5)] "rows") = true ∧
    handleSheetsAppendRows [("rows", JVal.num 5)] (Except.ok 0) =
      ⟨400, RespBody.errMsg "rows must be an array"⟩ ∧
    handleSheetsAppendRows [("rows", JVal.num 5)] (Except.error "boom") =
      ⟨400, RespBody.errMsg "rows must be an array"⟩ :=
  ⟨rfl, rfl, rfl⟩

/-- C8 (amended): a missing (non-truthy) required field yields 400 with the
static message without the delegate outcome influencing the response; the
sheets handler additionally requires `rows` to be an array; once validation
passes, a delegate error with a non-empty message yields 500 carrying that
message. -/
theorem handlers_field_validation_and_errors (body : List (String × JVal))
    (dJ dJ2 : Except String JVal) (dN dN2 : Except String Nat) (m : String) :
    (truthy (bodyField body "url") = false →
      handleFetchHtml body dJ = ⟨400, RespBody.errMsg "url is required"⟩ ∧
      handleFetchHtml body dJ = handleFetchHtml body dJ2) ∧
    (truthy (bodyField body "html") = false →
      handleExtractAlbumLinks body dJ = ⟨400, RespBody.errMsg "html is required"⟩ ∧
      handleExtractAlbumLinks body dJ = handleExtractAlbumLinks body dJ2 ∧
      handleExtractImageLinks body dJ = ⟨400, RespBody.errMsg "html is required"⟩ ∧
      handleExtractImageLinks body dJ = handleExtractImageLinks body dJ2) ∧
    (truthy (bodyField body "rows") = false ∨ isArr (bodyField body "rows") = false →
      handleSheetsAppendRows body dN = ⟨400, RespBody.errMsg "rows must be an array"⟩ ∧
      handleSheetsAppendRows body dN = handleSheetsAppendRows body dN2) ∧
    (truthy (bodyField body "url") = true → m ≠ "" →
      handleFetchHtml body (Except.error m) = ⟨500, RespBody.errMsg m⟩) ∧
    (truthy (bodyField body "html") = true → m ≠ "" →
      handleExtractAlbumLinks body (Except.error m) = ⟨500, RespBody.errMsg m⟩ ∧
      handleExtractImageLinks body (Except.error m) = ⟨500, RespBody.errMsg m⟩) ∧
    (truthy (bodyField body "rows") = true → isArr (bodyField body "rows") = true →
      m ≠ "" →
      handleSheetsAppendRows body (Except.error m) = ⟨500, RespBody.errMsg m⟩) := by
  refine ⟨?_, ?_, ?_, ?_, ?_, ?_⟩
  · intro h
    constructor <;> simp only [handleFetchHtml] <;> rw [if_pos h]
    rw [if_pos h]
  · intro h
    refine ⟨?_, ?_, ?_, ?_⟩ <;> simp only [handleExtractAlbumLinks,
      handleExtractImageLinks] <;> rw [if_pos h]
    · rw [if_pos h]
    · rw [if_pos h]
  · intro h
    have h400 : truthy (bodyField body "rows") = false ∨
        isArr (bodyField body "rows") = false := h
    constructor <;> simp only [handleSheetsAppendRows] <;> rw [if_pos h400]
    rw [if_pos h400]
  · intro h hm
    simp only [handleFetchHtml]
    rw [if_neg (by simp [h])]
    simp [jsOr, hm]
  · intro h hm
    constructor <;> simp only [handleExtractAlbumLinks, handleExtractImageLinks] <;>
      rw [if_neg (by simp [h])] <;> simp [jsOr, hm]
  · intro h1 h2 hm
    simp only [handleSheetsAppendRows]
    rw [if_neg (by simp [h1, h2])]
    simp [jsOr, hm]

/-- C8 (witness): the missing-field rule and the delegate-error rule applied
to concrete requests. -/
theorem handlers_field_validation_and_errors_inst :
    (truthy (bodyField [] "url") = false ∧
      handleFetchHtml [] (Except.ok JVal.null) =
        ⟨400, RespBody.errMsg "url is required"⟩) ∧
    (truthy (bodyField [("url", JVal.str "http://x")] "url") = true ∧
      "boom" ≠ "" ∧
      handleFetchHtml [("url", JVal.str "http://x")] (Except.error "boom") =
        ⟨500, RespBody.errMsg "boom"⟩) :=
  ⟨⟨rfl, ((handlers_field_validation_and_errors [] (Except.ok JVal.null)
      (Except.ok JVal.null) (Except.ok 0) (Except.ok 0) "boom").1 rfl).1⟩,
   ⟨rfl, by decide,
    (handlers_field_validation_and_errors [("url", JVal.str "http://x")]
      (Except.ok JVal.null) (Except.ok JVal.null) (Except.ok 0) (Except.ok 0)
      "boom").2.2.2.1 rfl (by decide)⟩⟩

/-- Two successive filters coincide with one filter by the conjunction. -/
theorem filter_and_eq {α : Type} (p q : α → Bool) (l : List α) :
    (l.filter p).filter q = l.filter (fun a => p a && q a) := by
  induction l with
  | nil => rfl
  | cons a t ih =>
    by_cases hp : p a = true <;> by_cases hq : q a = true <;>
      simp [List.filter_cons, hp, hq, ih]

/-- Filters by pointwise equal predicates coincide. -/
theorem filter_ext_eq {α : Type} (p q : α → Bool) (l : List α)
    (h : ∀ a, p a = q a) : l.filter p = l.filter q := by
  induction l with
  | nil => rfl
  | cons a t ih => rw [List.filter_cons, List.filter_cons, h a, ih]

/-- The image loop with any accumulator prefixes its declarative map-filter
reading. -/
theorem foldl_imgStep_eq (envBase : Option String) (imgs : List Img)
    (acc : List String) :
    imgs.foldl (imgStep envBase) acc = acc ++ imageCandidates envBase imgs := by
  induction imgs generalizing acc with
  | nil => simp [imageCandidates]
  | cons el rest ih =>
    rw [List.foldl_cons]
    by_cases h1 : imgCandidate el = ""
    · rw [show imgStep envBase acc el = acc from by simp [imgStep, h1], ih]
      simp [imageCandidates, List.filter_cons, h1]
    · by_cases h2 : isFilteredImg (imgCandidate el) = true
      · rw [show imgStep envBase acc el = acc from by simp [imgStep, h1, h2], ih]
        simp [imageCandidates, List.filter_cons, h2]
      · rw [show imgStep envBase acc el =
            acc ++ [absolute envBase (imgCandidate el)] from by
          simp [imgStep, h1, h2], ih]
        simp [imageCandidates, List.filter_cons, h1, h2]

/-- The de-duplication fold with any seen-set and accumulator equals the
accumulator followed by the recursive form of the loop. -/
theorem foldl_dedupStep_snd (l : List String) (seen acc : List String) :
    (l.foldl dedupStep (seen, acc)).2 = acc ++ dedupRec seen l := by
  induction l generalizing seen acc with
  | nil => simp [dedupRec]
  | cons u rest ih =>
    rw [List.foldl_cons]
    by_cases h : memStr u seen = true
    · rw [show dedupStep (seen, acc) u = (seen, acc) from by simp [dedupStep, h]]
      rw [ih, dedupRec, if_pos h]
    · rw [show dedupStep (seen, acc) u = (u :: seen, acc ++ [u]) from by
        simp [dedupStep, h]]
      rw [ih, dedupRec, if_neg h]
      simp

/-- The recursive de-duplication loop with seen-set `seen` equals the
declarative first-occurrence de-duplication of the input with the seen
values dropped. -/
theorem dedupRec_eq_dedupSpec (l : List String) (seen : List String) :
    dedupRec seen l = dedupSpec (l.filter (fun v => !(memStr v seen))) := by
  induction l generalizing seen with
  | nil => simp [dedupRec, dedupSpec]
  | cons u rest ih =>
    by_cases h : memStr u seen = true
    · rw [dedupRec, if_pos h, ih]
      simp [List.filter_cons, h]
    · rw [dedupRec, if_neg h]
      have hf : (u :: rest).filter (fun v => !(memStr v seen)) =
          u :: rest.filter (fun v => !(memStr v seen)) := by
        simp [List.filter_cons, h]
      have hspec : dedupSpec (u :: rest.filter (fun v => !(memStr v seen))) =
          u :: dedupSpec ((rest.filter (fun v => !(memStr v seen))).filter
            (fun v => v != u)) := by
        simp only [dedupSpec]
      have hpt : rest.filter (fun v => !(memStr v (u :: seen))) =
          (rest.filter (fun v => !(memStr v seen))).filter (fun v => v != u) := by
        rw [filter_and_eq]
        apply filter_ext_eq
        intro v
        cases h1 : v == u <;> cases h2 : memStr v seen <;>
          simp [memStr, h1, h2, bne]
      rw [hf, hspec, ih (u :: seen), hpt]

/-- Members of the declarative de-duplication come from the input list. -/
theorem mem_dedupSpec (x : String) : ∀ l : List String, x ∈ dedupSpec l → x ∈ l
  | [], hx => by simp [dedupSpec] at hx
  | u :: rest, hx => by
    rw [show dedupSpec (u :: rest) =
        u :: dedupSpec (rest.filter (fun v => v != u)) from by
      simp only [dedupSpec]] at hx
    rcases List.mem_cons.mp hx with rfl | hmem
    · exact List.mem_cons_self _ _
    · exact List.mem_cons_of_mem _
        (List.mem_filter.mp (mem_dedupSpec x (rest.filter _) hmem)).1
termination_by l => l.length
decreasing_by
  all_goals simp_wf
  exact Nat.lt_succ_of_le (List.length_filter_le _ _)

/-- The declarative de-duplication has no duplicates. -/
theorem dedupSpec_nodup : ∀ l : List String, (dedupSpec l).Nodup
  | [] => by simp [dedupSpec]
  | u :: rest => by
    rw [show dedupSpec (u :: rest) =
        u :: dedupSpec (rest.filter (fun v => v != u)) from by
      simp only [dedupSpec]]
    refine List.nodup_cons.mpr ⟨?_, dedupSpec_nodup (rest.filter _)⟩
    intro hmem
    have hf := (List.mem_filter.mp (mem_dedupSpec u _ hmem)).2
    simp at hf
termination_by l => l.length
decreasing_by
  all_goals simp_wf
  exact Nat.lt_succ_of_le (List.length_filter_le _ _)

/-- C4: `extractImages` equals the declarative pipeline — image elements in
document order, candidate from the lazy-load attribute first and the plain
source second, empty or placeholder candidates dropped before resolution,
survivors resolved and de-duplicated keeping the first occurrence — its
output has no duplicates, and the three-element example of the spec holds. -/
theorem extractImages_first_seen_dedup (envBase : Option String) (imgs : List Img) :
    extractImages envBase imgs = dedupSpec (imageCandidates envBase imgs) ∧
    (extractImages envBase imgs).Nodup ∧
    extractImages none [⟨none, some "a.jpg"⟩, ⟨some "b.jpg", some "low.jpg"⟩,
        ⟨none, some "sprite1.png"⟩] =
      ["https://yolo66.x.yupoo.com/a.jpg", "https://yolo66.x.yupoo.com/b.jpg"] := by
  have heq : extractImages envBase imgs = dedupSpec (imageCandidates envBase imgs) := by
    rw [extractImages, dedupFirst, foldl_imgStep_eq, List.nil_append,
      foldl_dedupStep_snd, List.nil_append, dedupRec_eq_dedupSpec]
    congr 1
    simp [memStr]
  refine ⟨heq, ?_, by decide⟩
  rw [heq]
  exact dedupSpec_nodup _

/-- The album fold with any seen-set and accumulator equals the accumulator
followed by the recursive form of the scan. -/
theorem foldl_scanAnchor_snd (envBase : Option String) (l : List Anchor)
    (seen : List String) (acc : List Album) :
    (l.foldl (scanAnchor envBase) (seen, acc)).2 = acc ++ scanRec envBase seen l := by
  induction l generalizing seen acc with
  | nil => simp [scanRec]
  | cons a rest ih =>
    rw [List.foldl_cons]
    by_cases h1 : a.href.getD "" = ""
    · rw [show scanAnchor envBase (seen, acc) a = (seen, acc) from by
        simp [scanAnchor, h1], ih]
      rw [show scanRec envBase seen (a :: rest) = scanRec envBase seen rest from by
        simp only [scanRec]; rw [if_pos h1]]
    · by_cases h2 : (albumPat (anchorUrl envBase a) &&
          !(memStr (anchorUrl envBase a) seen)) = true
      · rw [show scanAnchor envBase (seen, acc) a =
            (anchorUrl envBase a :: seen,
              acc ++ [⟨anchorUrl envBase a, anchorTitle a⟩]) from by
          simp only [scanAnchor]; rw [if_neg h1, if_pos h2], ih]
        rw [show scanRec envBase seen (a :: rest) =
            ⟨anchorUrl envBase a, anchorTitle a⟩ ::
              scanRec envBase (anchorUrl envBase a :: seen) rest from by
          simp only [scanRec]; rw [if_neg h1, if_pos h2]]
        simp
      · rw [show scanAnchor envBase (seen, acc) a = (seen, acc) from by
          simp only [scanAnchor]; rw [if_neg h1, if_neg h2], ih]
        rw [show scanRec envBase seen (a :: rest) = scanRec envBase seen rest from by
          simp only [scanRec]; rw [if_neg h1, if_neg h2]]

/-- The recursive album scan with seen-set `seen` equals the declarative
first-seen extraction of the anchors whose URL is not already seen. -/
theorem scanRec_eq_firstSeen (envBase : Option String) (l : List Anchor)
    (seen : List String) :
    scanRec envBase seen l = firstSeenAlbums envBase
      (l.filter (fun b => !(memStr (anchorUrl envBase b) seen))) := by
  induction l generalizing seen with
  | nil => simp [scanRec, firstSeenAlbums]
  | cons a rest ih =>
    cases hm : memStr (anchorUrl envBase a) seen with
    | true =>
      rw [show (a :: rest).filter (fun b => !(memStr (anchorUrl envBase b) seen)) =
          rest.filter (fun b => !(memStr (anchorUrl envBase b) seen)) from by
        simp [List.filter_cons, hm]]
      by_cases h1 : a.href.getD "" = ""
      · rw [show scanRec envBase seen (a :: rest) = scanRec envBase seen rest
          from by simp only [scanRec]; rw [if_pos h1]]
        exact ih seen
      · rw [show scanRec envBase seen (a :: rest) = scanRec envBase seen rest
          from by simp only [scanRec]; rw [if_neg h1, if_neg (by simp [hm])]]
        exact ih seen
    | false =>
      rw [show (a :: rest).filter (fun b => !(memStr (anchorUrl envBase b) seen)) =
          a :: rest.filter (fun b => !(memStr (anchorUrl envBase b) seen)) from by
        simp [List.filter_cons, hm]]
      by_cases h1 : a.href.getD "" = ""
      · rw [show scanRec envBase seen (a :: rest) = scanRec envBase seen rest
          from by simp only [scanRec]; rw [if_pos h1]]
        rw [show firstSeenAlbums envBase
            (a :: rest.filter (fun b => !(memStr (anchorUrl envBase b) seen))) =
            firstSeenAlbums envBase
              (rest.filter (fun b => !(memStr (anchorUrl envBase b) seen))) from by
          simp only [firstSeenAlbums]; rw [if_neg (by simp [h1])]]
        exact ih seen
      · by_cases hp : albumPat (anchorUrl envBase a) = true
        · rw [show scanRec envBase seen (a :: rest) =
              ⟨anchorUrl envBase a, anchorTitle a⟩ ::
                scanRec envBase (anchorUrl envBase a :: seen) rest from by
            simp only [scanRec]; rw [if_neg h1, if_pos (by simp [hp, hm])]]
          rw [show firstSeenAlbums envBase
              (a :: rest.filter (fun b => !(memStr (anchorUrl envBase b) seen))) =
              ⟨anchorUrl envBase a, anchorTitle a⟩ ::
                firstSeenAlbums envBase
                  ((rest.filter (fun b => !(memStr (anchorUrl envBase b) seen))).filter
                    (fun b => anchorUrl envBase b != anchorUrl envBase a)) from by
            simp only [firstSeenAlbums]; rw [if_pos (by simp [h1, hp])]]
          rw [ih (anchorUrl envBase a :: seen)]
          congr 1
          rw [filter_and_eq]
          congr 1
          apply filter_ext_eq
          intro b
          cases hb1 : anchorUrl envBase b == anchorUrl envBase a <;>
            cases hb2 : memStr (anchorUrl envBase b) seen <;>
              simp [memStr, hb1, hb2, bne]
        · rw [show scanRec envBase seen (a :: rest) = scanRec envBase seen rest
            from by simp only [scanRec]; rw [if_neg h1, if_neg (by simp [hp])]]
          rw [show firstSeenAlbums envBase
              (a :: rest.filter (fun b => !(memStr (anchorUrl envBase b) seen))) =
              firstSeenAlbums envBase
                (rest.filter (fun b => !(memStr (anchorUrl envBase b) seen))) from by
            simp only [firstSeenAlbums]; rw [if_neg (by simp [hp])]]
          exact ih seen

/-- The extractor `extractAlbums` equals the declarative first-seen extraction of the
concatenated selector tiers. -/
theorem extractAlbums_eq_firstSeen (envBase : Option String) (doc : AlbumDoc)
    (b : String) :
    extractAlbums envBase doc b = firstSeenAlbums envBase (docAnchors doc) := by
  rw [extractAlbums]
  rw [show doc.anchors.foldl (scanAnchor envBase)
      (doc.showMain.foldl (scanAnchor envBase)
        (doc.categoriesMain.foldl (scanAnchor envBase)
          (doc.albumMain.foldl (scanAnchor envBase) ([], [])))) =
      (docAnchors doc).foldl (scanAnchor envBase) ([], []) from by
    rw [docAnchors]; simp [List.foldl_append]]
  rw [foldl_scanAnchor_snd, List.nil_append, scanRec_eq_firstSeen]
  congr 1
  simp [memStr]

/-- A URL is among the outputs of the first-seen extraction exactly when some
anchor of the input has a non-empty href resolving to it and it passes the
album pattern. -/
theorem mem_firstSeen_url (envBase : Option String) :
    ∀ (l : List Anchor) (u : String),
    (u ∈ (firstSeenAlbums envBase l).map Album.album_url ↔
      ∃ a, a ∈ l ∧ ((a.href.getD "" != "") && albumPat (anchorUrl envBase a)) = true ∧
        anchorUrl envBase a = u)
  | [], u => by simp [firstSeenAlbums]
  | a :: rest, u => by
    by_cases hg : ((a.href.getD "" != "") && albumPat (anchorUrl envBase a)) = true
    · rw [show firstSeenAlbums envBase (a :: rest) =
          ⟨anchorUrl envBase a, anchorTitle a⟩ ::
            firstSeenAlbums envBase
              (rest.filter (fun b => anchorUrl envBase b != anchorUrl envBase a)) from by
        simp only [firstSeenAlbums]; rw [if_pos hg]]
      rw [List.map_cons]
      constructor
      · intro hmem
        rcases List.mem_cons.mp hmem with heq | hmem2
        · exact ⟨a, List.mem_cons_self _ _, hg, heq.symm⟩
        · rcases (mem_firstSeen_url envBase
              (rest.filter (fun b => anchorUrl envBase b != anchorUrl envBase a))
              u).mp hmem2 with ⟨b, hb, hgb, hub⟩
          exact ⟨b, List.mem_cons_of_mem _ (List.mem_filter.mp hb).1, hgb, hub⟩
      · rintro ⟨b, hb, hgb, hub⟩
        rcases List.mem_cons.mp hb with rfl | hbrest
        · exact List.mem_cons.mpr (Or.inl hub.symm)
        · by_cases hu : u = anchorUrl envBase a
          · exact List.mem_cons.mpr (Or.inl hu)
          · refine List.mem_cons.mpr (Or.inr ?_)
            apply (mem_firstSeen_url envBase
              (rest.filter (fun b => anchorUrl envBase b != anchorUrl envBase a))
              u).mpr
            refine ⟨b, List.mem_filter.mpr ⟨hbrest, ?_⟩, hgb, hub⟩
            rw [hub]
            exact bne_iff_ne.mpr hu
    · rw [show firstSeenAlbums envBase (a :: rest) = firstSeenAlbums envBase rest
        from by simp only [firstSeenAlbums]; rw [if_neg hg]]
      rw [mem_firstSeen_url envBase rest u]
      constructor
      · rintro ⟨b, hb, hgb, hub⟩
        exact ⟨b, List.mem_cons_of_mem _ hb, hgb, hub⟩
      · rintro ⟨b, hb, hgb, hub⟩
        rcases List.mem_cons.mp hb with rfl | hbrest
        · exact absurd hgb hg
        · exact ⟨b, hbrest, hgb, hub⟩
termination_by l u => l.length
decreasing_by
  all_goals simp_wf
  all_goals exact Nat.lt_succ_of_le (List.length_filter_le _ _)

/-- The URLs emitted by the first-seen extraction are pairwise distinct. -/
theorem firstSeen_urls_nodup (envBase : Option String) :
    ∀ l : List Anchor, ((firstSeenAlbums envBase l).map Album.album_url).Nodup
  | [] => by simp [firstSeenAlbums]
  | a :: rest => by
    by_cases hg : ((a.href.getD "" != "") && albumPat (anchorUrl envBase a)) = true
    · rw [show firstSeenAlbums envBase (a :: rest) =
          ⟨anchorUrl envBase a, anchorTitle a⟩ ::
            firstSeenAlbums envBase
              (rest.filter (fun b => anchorUrl envBase b != anchorUrl envBase a)) from by
        simp only [firstSeenAlbums]; rw [if_pos hg]]
      rw [List.map_cons]
      refine List.nodup_cons.mpr ⟨?_, firstSeen_urls_nodup envBase (rest.filter _)⟩
      intro hmem
      rcases (mem_firstSeen_url envBase
          (rest.filter (fun b => anchorUrl envBase b != anchorUrl envBase a))
          (anchorUrl envBase a)).mp hmem with ⟨b, hb, _, hub⟩
      have hbne := (List.mem_filter.mp hb).2
      rw [hub] at hbne
      simp at hbne
    · rw [show firstSeenAlbums envBase (a :: rest) = firstSeenAlbums envBase rest
        from by simp only [firstSeenAlbums]; rw [if_neg hg]]
      exact firstSeen_urls_nodup envBase rest
termination_by l => l.length
decreasing_by
  all_goals simp_wf
  all_goals exact Nat.lt_succ_of_le (List.length_filter_le _ _)

/-- C3: `extractAlbums` equals the declarative first-seen scan over the
concatenated selector tiers — each accepted URL appears exactly once, keyed
purely on the destination URL, titled by the first anchor of the scan that
reaches it, in first-seen order; and concretely a URL reached by two tiers
keeps the first tier title, while an anchor with no title attribute and
blank text is titled Untitled. -/
theorem extractAlbums_first_seen_dedup (envBase : Option String)
    (doc : AlbumDoc) (b : String) :
    extractAlbums envBase doc b = firstSeenAlbums envBase (docAnchors doc) ∧
    ((extractAlbums envBase doc b).map Album.album_url).Nodup ∧
    extractAlbums none ⟨[⟨some "/albums/9/", some "First", "x"⟩], [], [],
        [⟨some "/albums/9/", some "Second", "y"⟩]⟩ "" =
      [⟨"https://yolo66.x.yupoo.com/albums/9/", "First"⟩] ∧
    extractAlbums none ⟨[⟨some "/albums/9/", none, " "⟩], [], [], []⟩ "" =
      [⟨"https://yolo66.x.yupoo.com/albums/9/", "Untitled"⟩] := by
  refine ⟨extractAlbums_eq_firstSeen envBase doc b, ?_, by decide, by decide⟩
  rw [extractAlbums_eq_firstSeen]
  exact firstSeen_urls_nodup envBase (docAnchors doc)

/-- C7 (counterexample): a URL whose album segment sits at the end of the
path with no trailing slash satisfies the claimed anywhere-in-the-path
reading of the pattern, yet the pattern of the code rejects it and the
extractor drops the anchor. -/
theorem albumPat_segment_at_end_cex :
    albumPatSegmentAtEnd "https://h/albums" = true ∧
    albumPat "https://h/albums" = false ∧
    extractAlbums none ⟨[⟨some "https://h/albums", some "T", ""⟩], [], [], []⟩
      "x" = [] := by decide

/-- C7 (amended): a URL is among the accepted album URLs exactly when some
anchor resolves to it and it contains the substring slash-album-slash or
slash-albums-slash — the segment must be followed by a further slash, and
each accepted URL is kept only once. -/
theorem extractAlbums_url_membership (envBase : Option String) (doc : AlbumDoc)
    (b : String) (u : String) :
    u ∈ (extractAlbums envBase doc b).map Album.album_url ↔
      (albumPat u = true ∧ ∃ a, a ∈ docAnchors doc ∧ anchorUrl envBase a = u) := by
  rw [extractAlbums_eq_firstSeen, mem_firstSeen_url]
  constructor
  · rintro ⟨a, ha, hg, hu⟩
    rw [Bool.and_eq_true] at hg
    rcases hg with ⟨_, hp⟩
    rw [hu] at hp
    exact ⟨hp, a, ha, hu⟩
  · rintro ⟨hp, a, ha, hu⟩
    refine ⟨a, ha, ?_, hu⟩
    have hpa : albumPat (anchorUrl envBase a) = true := by rw [hu]; exact hp
    have hhref : a.href.getD "" ≠ "" := by
      intro he
      have hempty : anchorUrl envBase a = "" := by
        rw [anchorUrl, he]
        rfl
      rw [hempty] at hpa
      exact absurd hpa (by decide)
    rw [Bool.and_eq_true]
    exact ⟨bne_iff_ne.mpr hhref, hpa⟩

end Srv
